import Mathlib

set_option maxRecDepth 8000

/-!
Verification of the multi-radix expression calculator pipeline of
`number-conversion-rs`: the radix-aware tokenizer/normalizer
(`src/ui/pages/calculator.rs`), the radix-aware result formatter, the
backend worker protocol (`src/backend/worker.rs`) and the frontend
request-correlation / history state machine (`src/frontend/state.rs`).

The Rust code is embedded shallowly: machine integers become `Nat`/`Int`
with explicit bounds, `f64` values that the relevant code paths treat
exactly (integers, dyadic rationals, multiplications by powers of two,
floor, subtraction of the integer part) are modelled as `ℚ`, strings are
Lean `String`s manipulated through their character lists, and fallible
code returns `Except`/`Option`.
-/

/-! ## Character classifiers (src/ui/pages/calculator.rs) -/

/-- `is_digit_in_radix(ch, radix)`: `'0'..='9'` accepted when the digit value
is below the radix, `'A'..='F'`/`'a'..='f'` when `10 + offset` is below the
radix, and `'_'` always (digit-group separator). Character ranges are
expressed on code points: `'0'` = 48, `'9'` = 57, `'A'` = 65, `'F'` = 70,
`'a'` = 97, `'f'` = 102. -/
def is_digit_in_radix (ch : Char) (radix : Nat) : Bool :=
  if 48 ≤ ch.toNat ∧ ch.toNat ≤ 57 then (ch.toNat - 48) < radix
  else if 65 ≤ ch.toNat ∧ ch.toNat ≤ 70 then (10 + (ch.toNat - 65)) < radix
  else if 97 ≤ ch.toNat ∧ ch.toNat ≤ 102 then (10 + (ch.toNat - 97)) < radix
  else ch = '_'

/-- `is_number_char`: a radix digit, or `'.'` when the radix is exactly 10. -/
def is_number_char (ch : Char) (radix : Nat) : Bool :=
  is_digit_in_radix ch radix || (radix == 10 && ch == '.')

/-- Rust `char::is_ascii_alphabetic`. -/
def is_ascii_alphabetic (ch : Char) : Bool :=
  (65 ≤ ch.toNat ∧ ch.toNat ≤ 90) ∨ (97 ≤ ch.toNat ∧ ch.toNat ≤ 122)

/-- Rust `char::is_ascii_alphanumeric`. -/
def is_ascii_alphanumeric (ch : Char) : Bool :=
  is_ascii_alphabetic ch ∨ (48 ≤ ch.toNat ∧ ch.toNat ≤ 57)

/-- Rust `char::is_ascii_digit`. -/
def is_ascii_digit (ch : Char) : Bool :=
  48 ≤ ch.toNat ∧ ch.toNat ≤ 57

/-- Rust `char::to_ascii_uppercase` (`str::to_uppercase` acts per character
here; all characters reaching it are ASCII digits or letters). -/
def ascii_to_upper (c : Char) : Char :=
  if 97 ≤ c.toNat ∧ c.toNat ≤ 122 then Char.ofNat (c.toNat - 32) else c

/-- Rust `char::to_ascii_lowercase`. -/
def ascii_to_lower (c : Char) : Char :=
  if 65 ≤ c.toNat ∧ c.toNat ≤ 90 then Char.ofNat (c.toNat + 32) else c

/-- Digit value used by Rust `char::to_digit` (and hence
`i128::from_str_radix`): `'0'..'9'` ↦ 0–9, letters ↦ 10–35. Characters
outside these ranges are given value 0 (they are rejected separately). -/
def digit_val (c : Char) : Nat :=
  if 48 ≤ c.toNat ∧ c.toNat ≤ 57 then c.toNat - 48
  else if 97 ≤ c.toNat ∧ c.toNat ≤ 122 then c.toNat - 97 + 10
  else if 65 ≤ c.toNat ∧ c.toNat ≤ 90 then c.toNat - 65 + 10
  else 0

/-- Rust `char::to_digit(radix)`: the digit value when defined and below the
radix, else `none`. -/
def char_to_digit (c : Char) (radix : Nat) : Option Nat :=
  if ((48 ≤ c.toNat ∧ c.toNat ≤ 57) ∨ (97 ≤ c.toNat ∧ c.toNat ≤ 122) ∨
      (65 ≤ c.toNat ∧ c.toNat ≤ 90)) ∧ digit_val c < radix then
    some (digit_val c)
  else none

/-- `i128::MAX`. -/
def i128Max : Nat := 2 ^ 127 - 1

/-- `i128::from_str_radix` on the (sign-free) digit string handed to it by
`convert_number_token`: fold the digits most-significant first, failing on a
character that is not a digit of the radix or as soon as the accumulated
value would exceed `i128::MAX` (Rust's checked multiply/add overflow path). -/
def i128_from_str_radix (l : List Char) (radix : Nat) : Option Nat :=
  if l = [] then none
  else
    l.foldl
      (fun acc c =>
        match acc, char_to_digit c radix with
        | some a, some d =>
            if a * radix + d ≤ i128Max then some (a * radix + d) else none
        | _, _ => none)
      (some 0)

/-! ## Integer rendering (src/ui/pages/calculator.rs `format_radix`,
`format_radix_hex`, and Rust's `to_string`) -/

/-- Least-significant-first digit list of `v` in the given radix, by repeated
division. Structural recursion on a fuel argument that bounds the number of
divisions; `v` itself is always a sufficient bound. -/
def digitsAux (radix : Nat) : Nat → Nat → List Nat
  | 0, _ => []
  | fuel + 1, v => if v = 0 then [] else v % radix :: digitsAux radix fuel (v / radix)

/-- `format_radix(v, radix)`: digits produced least-significant first via
`v % radix` / `v /= radix`, each rendered as `b'0' + d`, then reversed;
`"0"` for zero. -/
def format_radix (v : Nat) (radix : Nat) : String :=
  if v = 0 then "0"
  else ⟨((digitsAux radix v v).map (fun d => Char.ofNat (48 + d))).reverse⟩

/-- Hexadecimal digit character of `format_radix_hex`: `0..=9` as `b'0' + d`,
otherwise `b'A' + (d - 10)`. -/
def hex_digit_char (d : Nat) : Char :=
  if d ≤ 9 then Char.ofNat (48 + d) else Char.ofNat (65 + (d - 10))

/-- `format_radix_hex(v)`: like `format_radix` with uppercase `A`–`F`. -/
def format_radix_hex (v : Nat) : String :=
  if v = 0 then "0"
  else ⟨((digitsAux 16 v v).map hex_digit_char).reverse⟩

/-- Rust `u128::to_string`: decimal rendering (same digit loop as
`format_radix` with radix 10). -/
def u128_to_string (u : Nat) : String := format_radix u 10

/-- Rust `i128::to_string`: decimal magnitude with a `-` sign when
negative. -/
def i128_to_string (v : Int) : String :=
  if v < 0 then "-" ++ u128_to_string v.natAbs else u128_to_string v.toNat

/-! ## `convert_number_token` (src/ui/pages/calculator.rs) -/

/-- `convert_number_token(tok, radix)`. For radix 10 with a decimal point:
reject multiple dots, strip underscores, reject a leading/trailing dot or a
non-digit, and pass the base-10 literal through. Otherwise: strip
underscores, split an optional leading `-`, reject an empty body or an
out-of-radix digit, parse through `i128::from_str_radix` on the uppercased
body (failing on overflow), and render the value in decimal with the
original sign. String operations are carried out on the character list. -/
def convert_number_token (tok : String) (radix : Nat) : Except String String :=
  if radix = 10 ∧ tok.data.contains '.' then
    let dots := tok.data.countP (· = '.')
    if dots > 1 then .error "无效数字：多个小数点"
    else
      let s := tok.data.filter (· ≠ '_')
      if s.head? = some '.' ∨ s.getLast? = some '.' then
        .error "无效数字：小数点位置错误"
      else if ¬ s.all (fun c => is_ascii_digit c || c == '.') then .error "无效数字"
      else .ok ⟨s⟩
  else
    let s := tok.data.filter (· ≠ '_')
    let neg := s.head? = some '-'
    let body := if neg then s.tail else s
    if body = [] then .error "无效数字"
    else if ¬ body.all (fun c => is_digit_in_radix c radix) then
      .error ("包含超出基数 " ++ toString radix ++ " 的数字")
    else
      match i128_from_str_radix (body.map ascii_to_upper) radix with
      | none => .error "数字解析失败"
      | some v => .ok (i128_to_string (if neg then -(v : Int) else (v : Int)))

/-! ## `convert_expr_from_base` (src/ui/pages/calculator.rs) -/

/-- The token-kind state machine of `convert_expr_from_base`. -/
inductive TokKind where
  | start
  | number
  | ident
  | lparen
  | rparen
  | op
  | comma
deriving DecidableEq, Repr

/-- Loop state of `convert_expr_from_base`: the output built so far, the kind
of the previously emitted token, and the last identifier emitted. -/
structure ConvSt where
  out : String
  lastKind : TokKind
  lastIdent : Option String
deriving DecidableEq, Repr

/-- The operator/parenthesis/comma character class of
`convert_expr_from_base` (`is_op`). -/
def is_op_char (c : Char) : Bool :=
  c = '+' ∨ c = '-' ∨ c = '*' ∨ c = '/' ∨ c = '%' ∨ c = '^' ∨ c = ',' ∨
    c = '(' ∨ c = ')'

/-- `is_function_like(name)` from src/ui/pages/calculator.rs: lowercase the
name and compare against the fixed function-name set. -/
def is_function_like (name : String) : Bool :=
  (["sin", "cos", "tan", "asin", "acos", "atan", "sinh", "cosh", "tanh",
    "log", "ln", "sqrt", "abs", "floor", "ceil", "ceiling", "round", "exp",
    "pow", "min", "max"] : List String).contains ⟨name.data.map ascii_to_lower⟩

/-- Whether an implicit `*` is inserted before a `(` given the loop state:
after a number or `)` always; after an identifier, unless the identifier is
a recognized function name (`last_ident` is `None` only before any
identifier was emitted, and then the Rust code inserts). -/
def lparen_insert (st : ConvSt) : Bool :=
  match st.lastKind with
  | .number => true
  | .rparen => true
  | .ident =>
      match st.lastIdent with
      | some name => ¬ is_function_like name
      | none => true
  | _ => false

/-- The `while i < chars.len()` loop of `convert_expr_from_base`, character
list in place of the index, with a structural fuel argument bounding the
number of iterations (each iteration consumes at least one character, so
`chars.length + 1` is always sufficient). Whitespace is modelled with
`Char.isWhitespace`, which agrees with Rust `char::is_whitespace` on
ASCII. -/
def convert_loop (radix : Nat) : Nat → ConvSt → List Char → Except String String
  | _, st, [] => .ok st.out
  | 0, _, _ :: _ => .error "内部错误"
  | fuel + 1, st, c :: rest =>
    if c.isWhitespace then convert_loop radix fuel st rest
    else
      let canUnary := st.lastKind = .start ∨ st.lastKind = .lparen ∨
        st.lastKind = .op ∨ st.lastKind = .comma
      if c = '-' ∧ canUnary then
        let digits := rest.takeWhile (fun ch => is_number_char ch radix)
        if digits = [] then .error "一元负号后缺少数字"
        else
          match convert_number_token ⟨c :: digits⟩ radix with
          | .error e => .error e
          | .ok val =>
              convert_loop radix fuel
                { out := st.out ++ val, lastKind := .number,
                  lastIdent := st.lastIdent }
                (rest.dropWhile (fun ch => is_number_char ch radix))
      else if is_number_char c radix then
        match convert_number_token
            ⟨c :: rest.takeWhile (fun ch => is_number_char ch radix)⟩ radix with
        | .error e => .error e
        | .ok val =>
            let star : String :=
              if st.lastKind = .number ∨ st.lastKind = .rparen ∨
                  st.lastKind = .ident then "*" else ""
            convert_loop radix fuel
              { out := st.out ++ star ++ val, lastKind := .number,
                lastIdent := st.lastIdent }
              (rest.dropWhile (fun ch => is_number_char ch radix))
      else if is_op_char c then
        if c = '(' then
          convert_loop radix fuel
            { out := st.out ++ (if lparen_insert st then "*(" else "("),
              lastKind := .lparen, lastIdent := st.lastIdent } rest
        else if c = ')' then
          convert_loop radix fuel
            { out := st.out ++ ")", lastKind := .rparen,
              lastIdent := st.lastIdent } rest
        else if c = ',' then
          convert_loop radix fuel
            { out := st.out ++ ",", lastKind := .comma,
              lastIdent := st.lastIdent } rest
        else
          convert_loop radix fuel
            { out := st.out.push c, lastKind := .op,
              lastIdent := st.lastIdent } rest
      else if is_ascii_alphabetic c ∨ c = '_' then
        let tok : String :=
          ⟨c :: rest.takeWhile (fun ch => is_ascii_alphanumeric ch ∨ ch = '_')⟩
        let star : String :=
          if st.lastKind = .number ∨ st.lastKind = .rparen ∨
              st.lastKind = .ident then "*" else ""
        convert_loop radix fuel
          { out := st.out ++ star ++ tok, lastKind := .ident,
            lastIdent := some tok }
          (rest.dropWhile (fun ch => is_ascii_alphanumeric ch ∨ ch = '_'))
      else .error ("不支持的字符: " ++ toString c)

/-- `convert_expr_from_base(expr, radix)`: run the scan from the `Start`
state over the expression's characters. -/
def convert_expr_from_base (expr : String) (radix : Nat) : Except String String :=
  convert_loop radix (expr.data.length + 1)
    { out := "", lastKind := .start, lastIdent := none } expr.data

example : convert_expr_from_base "A+B" 16 = .ok "10+11" := by rfl
example : convert_expr_from_base "FF" 16 = .ok "255" := by rfl
example : convert_expr_from_base "1010+1111" 2 = .ok "10+15" := by rfl
example : convert_expr_from_base "2(3+1)" 10 = .ok "2*(3+1)" := by rfl
example : convert_expr_from_base "2pi" 10 = .ok "2*pi" := by rfl
example : convert_expr_from_base "sin(0)" 10 = .ok "sin(0)" := by rfl
example : convert_expr_from_base "G" 16 = .ok "G" := by rfl
example : convert_expr_from_base "_a" 16 = .ok "10" := by rfl
example : convert_expr_from_base "_" 10 = .error "无效数字" := by rfl
example : convert_expr_from_base "2G" 16 = .ok "2*G" := by rfl
example : convert_expr_from_base "GAB" 16 = .ok "GAB" := by rfl
example : convert_expr_from_base "-5+3" 10 = .ok "-5+3" := by rfl
example : convert_expr_from_base "1.2.3" 10 = .error "无效数字：多个小数点" := by rfl

/-! ## Radix-aware result formatter (src/ui/pages/calculator.rs
`format_auto`, `format_value_in_radix`, `format_float_in_radix`)

The formatter operates on `f64`. On every code path exercised below the
`f64` operations are exact — the values are dyadic rationals, the radix is
a power of two, and the operations are `round`, `floor`, `trunc`,
`abs`, multiplication by a power of two, and subtraction of the integer
part — so the value is modelled as `ℚ`. (`NaN`/`±∞` have no `ℚ`
representative; the `is_finite` guard of `format_float_in_radix` is handled
at the `F64` wrapper below. `-0.0` is identified with `0`.) -/

/-- The exact value of the `f64` literal `1e-12` (the early-stop tolerance):
`4951760157141521 * 2^-92`. -/
def tol_const : ℚ := (4951760157141521 : ℚ) / (2 ^ 92 : ℚ)

/-- `f64::round`: round half away from zero (exact on `f64`). -/
def round_half_away (q : ℚ) : Int :=
  if q < 0 then -⌊(1 / 2 : ℚ) - q⌋ else ⌊q + 1 / 2⌋

/-- Round to the nearest integer, ties to even — the rounding applied by
Rust's fixed-precision formatting `format!("{:.12}", v)`. -/
def round_half_even (q : ℚ) : Int :=
  let f := ⌊q⌋
  if q - f < 1 / 2 then f
  else if q - f > 1 / 2 then f + 1
  else if f % 2 = 0 then f else f + 1

/-- Rust `as i128` applied to the (integral) rounded `f64`: saturating
cast. -/
def i128_sat_cast (n : Int) : Int :=
  if n ≥ 2 ^ 127 then 2 ^ 127 - 1
  else if n < -(2 ^ 127) then -(2 ^ 127)
  else n

/-- `format_value_in_radix(val, radix)`: sign split, magnitude rendered by
radix (`u128::to_string` for 10 and the fallback, `format_radix` for 2/8,
`format_radix_hex` for 16). -/
def format_value_in_radix (val : Int) (radix : Nat) : String :=
  let u : Nat := val.natAbs
  let s :=
    match radix with
    | 10 => u128_to_string u
    | 2 => format_radix u 2
    | 8 => format_radix u 8
    | 16 => format_radix_hex u
    | _ => u128_to_string u
  if val < 0 then "-" ++ s else s

/-- Decimal digits of `n` padded on the left with `'0'` to the given
width (the zero-padded fractional block of `format!("{:.12}", v)`). -/
def dec_digits_padded (n : Nat) (width : Nat) : List Char :=
  let l := ((digitsAux 10 n n).map (fun d => Char.ofNat (48 + d))).reverse
  List.replicate (width - l.length) '0' ++ l

/-- Rust `format!("{:.12}", val)`: the value rounded to 12 fractional
decimal digits (nearest, ties to even) and rendered with exactly 12
fractional digits. -/
def format_fixed12 (val : ℚ) : String :=
  let m := (round_half_even (|val| * 10 ^ 12)).toNat
  (if val < 0 then "-" else "") ++
    u128_to_string (m / 10 ^ 12) ++ "." ++ ⟨dec_digits_padded (m % 10 ^ 12) 12⟩

/-- The trailing-zero / trailing-dot trimming loop applied to the `{:.12}`
rendering (`while s.ends_with('0') { s.pop() } if s.ends_with('.') {
s.pop() }`, guarded by `s.contains('.')`). -/
def trim_float (s : String) : String :=
  if s.data.contains '.' then
    let t := s.data.reverse.dropWhile (· = '0')
    ⟨(if t.head? = some '.' then t.tail else t).reverse⟩
  else s

/-- The fractional-digit loop of `format_float_in_radix`: up to the given
number of iterations, multiply by the radix, take the floor digit (pushed
through the same `0..=9` / `A`–`F` mapping as `format_radix_hex`), subtract
it, and stop as soon as the remainder drops below `1e-12`. The `f64`
state is exact here: multiplication by the power-of-two radix, `floor`,
and the subtraction are all exact. -/
def frac_loop (r : ℚ) : Nat → ℚ → String → String
  | 0, _, acc => acc
  | fd + 1, f, acc =>
    let f1 := f * r
    let di : Nat := (⌊f1⌋).toNat
    let acc1 := acc.push (hex_digit_char di)
    let f2 := f1 - (⌊f1⌋ : ℚ)
    if f2 < tol_const then acc1 else frac_loop r fd f2 acc1

/-- `format_float_in_radix(val, radix, frac_digits)` for finite values.
Radix 10 uses the trimmed `{:.12}` rendering. Otherwise: sign split, the
integer part (truncation of the absolute value, hence its floor) falls
back to annotated decimal when above `u128::MAX as f64 = 2^128`, else is
rendered in the radix, and the fractional part goes through `frac_loop`. -/
def format_float_in_radix (val : ℚ) (radix : Nat) (frac_digits : Nat) : String :=
  if radix = 10 then trim_float (format_fixed12 val)
  else
    let neg := val < 0
    let a := |val|
    let int_part : Int := ⌊a⌋
    if (int_part : ℚ) > 2 ^ 128 then
      trim_float (format_fixed12 val) ++ " (十进制)"
    else
      let int_u : Nat := int_part.toNat
      let int_str :=
        match radix with
        | 2 => format_radix int_u 2
        | 8 => format_radix int_u 8
        | 16 => format_radix_hex int_u
        | _ => u128_to_string int_u
      let frac := a - (int_u : ℚ)
      if frac_digits = 0 ∨ frac ≤ 0 then
        if neg ∧ (int_u ≠ 0 ∨ frac = 0) then "-" ++ int_str else int_str
      else
        let frac_str := frac_loop (radix : ℚ) frac_digits frac ""
        let result :=
          if frac_str = "" then int_str else int_str ++ "." ++ frac_str
        if neg then "-" ++ result else result

/-- `format_auto(val, radix, frac_digits)`: when the value is within
`max(1e-12, 1e-12 * |round(val)|)` of its nearest integer and that integer
is at most `i128::MAX as f64 = 2^127` in magnitude, render it as an
integer, else as a float. -/
def format_auto (val : ℚ) (radix : Nat) (frac_digits : Nat) : String :=
  let nearest : Int := round_half_away val
  let tol : ℚ := max tol_const (tol_const * |(nearest : ℚ)|)
  if |val - (nearest : ℚ)| ≤ tol ∧ |(nearest : ℚ)| ≤ 2 ^ 127 then
    format_value_in_radix (i128_sat_cast nearest) radix
  else format_float_in_radix val radix frac_digits

/-- Number of binary digits of `n` (fuel-bounded; `n` is a sufficient
bound). -/
def bit_length : Nat → Nat → Nat
  | 0, _ => 0
  | fuel + 1, n => if n = 0 then 0 else bit_length fuel (n / 2) + 1

/-- Models Rust `n as f64` for a non-negative 64-bit integer: IEEE-754
binary64 rounding to 53 significant bits, nearest, ties to even (every
`n < 2^64` is far inside the exponent range, so no overflow occurs; the
result is again an integer). -/
def f64_of_nat (n : Nat) : Nat :=
  if n ≤ 2 ^ 53 then n
  else
    let e := bit_length n n - 53
    let q := n / 2 ^ e
    let r := n % 2 ^ e
    let q' :=
      if 2 ^ e < 2 * r ∨ (2 * r = 2 ^ e ∧ q % 2 = 1) then q + 1 else q
    q' * 2 ^ e

/-- Modelled from the spec: the round-trip observer "`format(n as f64, r,
k)` parsed back through the matching base and re-evaluated". Digits (with
`A`–`F`/`a`–`f` as 10–15) folded most-significant first in the given
base. -/
def parse_back_radix (radix : Nat) (s : String) : Nat :=
  s.data.foldl (fun a c => a * radix + digit_val c) 0

example : f64_of_nat ((2 : Nat) ^ 53 + 1) = 2 ^ 53 := by decide
example : parse_back_radix 16 (format_value_in_radix 255 16) = 255 := by decide

/-! ## Backend messages and worker (src/backend/messages.rs,
src/backend/worker.rs) -/

/-- An `f64` as seen by the worker/frontend protocol: a finite value
(modelled exactly as a rational, identifying `-0.0` with `0`) or a
non-finite one. -/
inductive F64 where
  | finite (q : ℚ)
  | nan
  | posInf
  | negInf
deriving DecidableEq

/-- Rust `f64::is_finite`. -/
def F64.is_finite : F64 → Bool
  | .finite _ => true
  | _ => false

/-- `CalculatorRequest` (src/backend/messages.rs). `id` is a `u64`. -/
structure CalculatorRequest where
  id : Nat
  decimal_expr : String
  radix : Nat
  original_input : String
deriving DecidableEq

/-- `CalculatorResponse` (src/backend/messages.rs). -/
structure CalculatorResponse where
  id : Nat
  value : Option F64
  error : Option String
  radix : Nat
  original_input : String
  decimal_expr : String
deriving DecidableEq

/-- `BackendWorker::handle_calculator` (src/backend/worker.rs),
parameterized by the result of the `calc_engine::evaluate` call on
`req.decimal_expr` (the evaluator is the external collaborator of the
pipeline): a non-finite `Ok` value becomes the error `计算结果非有限数`
with no value; a finite value is passed through; an `Err` is passed
through as the error. All correlation/context fields are copied from the
request. -/
def handle_calculator (eval_result : Except String F64)
    (req : CalculatorRequest) : CalculatorResponse :=
  match eval_result with
  | .ok value =>
      if ¬ value.is_finite then
        { id := req.id, value := none, error := some "计算结果非有限数",
          radix := req.radix, original_input := req.original_input,
          decimal_expr := req.decimal_expr }
      else
        { id := req.id, value := some value, error := none,
          radix := req.radix, original_input := req.original_input,
          decimal_expr := req.decimal_expr }
  | .error e =>
      { id := req.id, value := none, error := some e,
        radix := req.radix, original_input := req.original_input,
        decimal_expr := req.decimal_expr }

/-! ## Frontend calculator state (src/frontend/state.rs) -/

/-- `MAX_HISTORY` (src/frontend/state.rs; the same constant appears in
src/ui/pages/calculator/mod.rs). -/
def MAX_HISTORY : Nat := 200

/-- `CalculatorHistoryEntry` (src/frontend/state.rs). -/
structure CalculatorHistoryEntry where
  radix : Nat
  input : String
  decimal_expr : String
  output : String
  error : Option String
deriving DecidableEq

/-- `CalculatorState` (src/frontend/state.rs); the history `VecDeque` is a
list, front first. -/
structure CalculatorState where
  radix : Nat
  input : String
  output : String
  last_error : Option String
  last_value : Option F64
  history : List CalculatorHistoryEntry
  pending_id : Option Nat
deriving DecidableEq

/-- `FrontendState::format_auto(value, radix)` as called from
`handle_response` (fraction digits fixed at 16), lifted to possibly
non-finite `f64` values: `format_auto` on a non-finite input falls through
its tolerance test (every comparison against `NaN` is false, and
`±∞ - ±∞` is `NaN`) into `format_float_in_radix`, whose `is_finite` guard
returns `"NaN"`. -/
def format_auto_f64 : F64 → Nat → String
  | .finite q, radix => format_auto q radix 16
  | _, _ => "NaN"

/-- The `while self.calculator.history.len() > MAX_HISTORY { pop_front }`
eviction loop, fuel-bounded (the list length is always a sufficient
bound; each iteration pops one front element). -/
def evict_oldest : Nat → List CalculatorHistoryEntry → List CalculatorHistoryEntry
  | 0, h => h
  | fuel + 1, h => if h.length > MAX_HISTORY then evict_oldest fuel h.tail else h

/-- `push_back` followed by the bounded eviction loop — the history update
performed by `FrontendState::handle_response` on a successful calculator
response (`RadixCalculator::push_history` in src/ui/pages/calculator/mod.rs
performs the identical update). -/
def push_bounded (h : List CalculatorHistoryEntry)
    (e : CalculatorHistoryEntry) : List CalculatorHistoryEntry :=
  evict_oldest (h ++ [e]).length (h ++ [e])

/-- The `BackendResponse::Calculator` arm of `FrontendState::handle_response`
(src/frontend/state.rs): only a response whose `id` equals the pending slot
clears the slot and applies the result; an error response stores the error
and clears the value; a value response stores the value, formats the
output, and appends a history entry under the `MAX_HISTORY` bound; a
response with neither only clears the slot. Any other response leaves the
state untouched. -/
def handle_calculator_response (st : CalculatorState)
    (resp : CalculatorResponse) : CalculatorState :=
  if st.pending_id = some resp.id then
    let st1 := { st with pending_id := none }
    match resp.error with
    | some error => { st1 with last_error := some error, last_value := none }
    | none =>
        match resp.value with
        | some value =>
            let output := format_auto_f64 value st1.radix
            { st1 with
              last_value := some value, last_error := none, output := output,
              history := push_bounded st1.history
                { radix := resp.radix, input := resp.original_input,
                  decimal_expr := resp.decimal_expr, output := output,
                  error := none } }
        | none => st1
  else st

/-- `Backend::next_id` (src/backend/worker.rs): return the current id and
advance by a wrapping `u64` increment. -/
def backend_next_id (next_id : Nat) : Nat × Nat :=
  (next_id, (next_id + 1) % 2 ^ 64)

/-- `FrontendState::request_calculator_eval` (src/frontend/state.rs):
allocate the next id, mark it pending, clear the error, and build the
request. Returns the new state, the new id counter, and the sent
request. -/
def request_calculator_eval (st : CalculatorState) (next_id : Nat)
    (decimal_expr : String) (radix : Nat) (original_input : String) :
    CalculatorState × Nat × CalculatorRequest :=
  let idPair := backend_next_id next_id
  ({ st with pending_id := some idPair.1, last_error := none }, idPair.2,
    { id := idPair.1, decimal_expr := decimal_expr, radix := radix,
      original_input := original_input })

/-! ## Shared helper lemmas -/

theorem char_toNat_ofNat_valid {n : Nat} (h : n.isValidChar) :
    (Char.ofNat n).toNat = n := by
  simp [Char.ofNat, h, Char.ofNatAux, Char.toNat, UInt32.toNat, BitVec.toNat_ofNatLt]

/-! ## C10: response echoes the request's correlation/context fields -/

/-- C10: for every calculator request processed by the worker, the produced
response echoes the request's correlation and context fields unchanged —
`id`, `radix`, `original_input`, `decimal_expr` — on both the success and
the error path of the evaluator call. -/
theorem C10_response_echoes_request (eval_result : Except String F64)
    (req : CalculatorRequest) :
    (handle_calculator eval_result req).id = req.id ∧
    (handle_calculator eval_result req).radix = req.radix ∧
    (handle_calculator eval_result req).original_input = req.original_input ∧
    (handle_calculator eval_result req).decimal_expr = req.decimal_expr := by
  cases eval_result with
  | error e => simp [handle_calculator]
  | ok v => by_cases h : v.is_finite <;> simp [handle_calculator, h]

/-! ## C6: exactly one of value/error; non-finite results become errors -/

/-- C6: every `CalculatorResponse` produced by the worker has exactly one of
`value`/`error` populated; `value` is populated only when the evaluator
returned a finite value; a non-finite evaluator result yields
`error = some "计算结果非有限数"` with `value = none`. -/
theorem C6_value_error_exclusive (eval_result : Except String F64)
    (req : CalculatorRequest) :
    ((handle_calculator eval_result req).value.isSome = true ↔
      (handle_calculator eval_result req).error = none) ∧
    (∀ v : F64, (handle_calculator eval_result req).value = some v →
      eval_result = .ok v ∧ v.is_finite = true) ∧
    (∀ v : F64, eval_result = .ok v → v.is_finite = false →
      (handle_calculator eval_result req).value = none ∧
      (handle_calculator eval_result req).error = some "计算结果非有限数") := by
  cases eval_result with
  | error e => simp [handle_calculator]
  | ok v => by_cases h : v.is_finite <;> simp_all [handle_calculator]

/-- Witness for C6 at a concrete non-finite evaluator result. -/
theorem C6_value_error_exclusive_witness :
    (handle_calculator (.ok F64.nan) ⟨7, "1/0", 10, "1/0"⟩).value = none ∧
    (handle_calculator (.ok F64.nan) ⟨7, "1/0", 10, "1/0"⟩).error =
      some "计算结果非有限数" :=
  (C6_value_error_exclusive (.ok F64.nan) ⟨7, "1/0", 10, "1/0"⟩).2.2 F64.nan rfl rfl

/-! ## C4: stale responses are discarded without side effects -/

/-- C4: a polled calculator response whose `id` differs from the pending id
is a no-op (the whole state — `pending_id`, `output`, `last_value`,
`last_error`, history — is unchanged); only a matching response clears the
slot and applies the result. Consecutive requests receive distinct ids and
the pending slot holds the latest request's id, so after issuing A then B,
A's stale response is discarded and only B's updates the field. -/
theorem C4_stale_response_discarded :
    (∀ (st : CalculatorState) (resp : CalculatorResponse),
        st.pending_id ≠ some resp.id → handle_calculator_response st resp = st) ∧
    (∀ (st : CalculatorState) (resp : CalculatorResponse),
        st.pending_id = some resp.id →
        (handle_calculator_response st resp).pending_id = none) ∧
    (∀ (st : CalculatorState) (resp : CalculatorResponse) (v : F64),
        st.pending_id = some resp.id → resp.error = none → resp.value = some v →
        (handle_calculator_response st resp).last_value = some v ∧
        (handle_calculator_response st resp).last_error = none) ∧
    (∀ next_id : Nat, next_id < 2 ^ 64 →
        (backend_next_id next_id).1 ≠ (backend_next_id (backend_next_id next_id).2).1) ∧
    (∀ (st : CalculatorState) (next_id : Nat) (d : String) (r : Nat) (o : String),
        (request_calculator_eval st next_id d r o).1.pending_id =
          some (request_calculator_eval st next_id d r o).2.2.id) ∧
    (∀ (st : CalculatorState) (respA respB : CalculatorResponse) (vB : F64),
        st.pending_id = some respB.id → respA.id ≠ respB.id →
        respB.error = none → respB.value = some vB →
        handle_calculator_response st respA = st ∧
        (handle_calculator_response st respB).last_value = some vB) := by
  refine ⟨?_, ?_, ?_, ?_, ?_, ?_⟩
  · intro st resp h
    simp [handle_calculator_response, h]
  · intro st resp h
    rw [handle_calculator_response, if_pos h]
    cases resp.error with
    | some e => simp
    | none => cases resp.value <;> simp
  · intro st resp v h he hv
    rw [handle_calculator_response, if_pos h, he, hv]
    simp
  · intro next_id h
    simp only [backend_next_id]
    omega
  · intro st next_id d r o
    simp [request_calculator_eval, backend_next_id]
  · intro st respA respB vB h hne he hv
    constructor
    · rw [handle_calculator_response, if_neg]
      rw [h]
      exact fun hc => hne (Option.some.inj hc).symm
    · rw [handle_calculator_response, if_pos h, he, hv]

/-- Witness for C4: a stale response (pending id 5, response id 6) leaves a
concrete state unchanged, and the matching response applies its value. -/
theorem C4_stale_response_discarded_witness :
    handle_calculator_response
      ⟨10, "1+1", "", none, none, [], some 5⟩
      ⟨6, some (.finite 2), none, 10, "1+1", "1+1"⟩ =
      ⟨10, "1+1", "", none, none, [], some 5⟩ ∧
    (handle_calculator_response
      ⟨10, "1+1", "", none, none, [], some 6⟩
      ⟨6, some (.finite 2), none, 10, "1+1", "1+1"⟩).last_value =
      some (.finite 2) :=
  (C4_stale_response_discarded.2.2.2.2.2
    ⟨10, "1+1", "", none, none, [], some 6⟩
    ⟨5, some (.finite 3), none, 10, "2+2", "2+2"⟩
    ⟨6, some (.finite 2), none, 10, "1+1", "1+1"⟩
    (.finite 2) rfl (by decide) rfl rfl).imp
    (fun _ =>
      C4_stale_response_discarded.1
        ⟨10, "1+1", "", none, none, [], some 5⟩
        ⟨6, some (.finite 2), none, 10, "1+1", "1+1"⟩ (by decide))
    (fun h => h)

/-! ## C5: bounded history with FIFO eviction -/

theorem evict_oldest_eq (fuel : Nat) (h : List CalculatorHistoryEntry)
    (hf : h.length - MAX_HISTORY ≤ fuel) :
    evict_oldest fuel h = h.drop (h.length - MAX_HISTORY) := by
  induction fuel generalizing h with
  | zero =>
      have h0 : h.length - MAX_HISTORY = 0 := by omega
      rw [evict_oldest, h0, List.drop_zero]
  | succ fuel ih =>
      rw [evict_oldest]
      by_cases hlen : h.length > MAX_HISTORY
      · rw [if_pos hlen]
        cases h with
        | nil => simp [MAX_HISTORY] at hlen
        | cons a t =>
            have ht : t.length - MAX_HISTORY ≤ fuel := by
              simp at hf ⊢
              omega
            rw [List.tail_cons, ih t ht]
            have : (a :: t).length - MAX_HISTORY = (t.length - MAX_HISTORY) + 1 := by
              simp at hlen ⊢
              omega
            rw [this, List.drop_succ_cons]
      · rw [if_neg hlen]
        have h0 : h.length - MAX_HISTORY = 0 := by omega
        rw [h0, List.drop_zero]

theorem push_bounded_eq (h : List CalculatorHistoryEntry)
    (e : CalculatorHistoryEntry) :
    push_bounded h e = (h ++ [e]).drop ((h.length + 1) - MAX_HISTORY) := by
  rw [push_bounded, evict_oldest_eq _ _ (by omega)]
  simp

theorem push_bounded_length (h : List CalculatorHistoryEntry)
    (e : CalculatorHistoryEntry) (_hb : h.length ≤ MAX_HISTORY) :
    (push_bounded h e).length ≤ MAX_HISTORY := by
  rw [push_bounded_eq]
  simp
  omega

theorem foldl_push_bounded (es : List CalculatorHistoryEntry) :
    ∀ h : List CalculatorHistoryEntry, h.length ≤ MAX_HISTORY →
    es.foldl push_bounded h = (h ++ es).drop ((h.length + es.length) - MAX_HISTORY) := by
  induction es with
  | nil =>
      intro h hb
      simp only [List.foldl_nil, List.append_nil, List.length_nil, Nat.add_zero]
      have h0 : h.length - MAX_HISTORY = 0 := by omega
      rw [h0, List.drop_zero]
  | cons e es ih =>
      intro h hb
      rw [List.foldl_cons, ih (push_bounded h e) (push_bounded_length h e hb),
        push_bounded_eq, List.length_drop]
      have hk : (h.length + 1) - MAX_HISTORY ≤ (h ++ [e]).length := by
        simp
      rw [← List.drop_append_of_le_length hk, List.drop_drop]
      have harr : (h ++ [e]) ++ es = h ++ e :: es := by simp
      rw [harr]
      have hcongr : ∀ a b : Nat, a = b →
          (h ++ e :: es).drop a = (h ++ e :: es).drop b := by
        intro a b hab
        rw [hab]
      apply hcongr
      simp only [List.length_append, List.length_cons, List.length_singleton,
        List.length_nil]
      omega


/-- C5: the calculator history never exceeds `MAX_HISTORY = 200` entries
(under any sequence of pushes from a within-bound state), eviction is FIFO
in insertion order, 250 sequential successful evaluations starting from an
empty history leave exactly the 200 newest entries (the 50 oldest are
dropped from the front), and a matching successful response updates the
history by exactly this bounded push. -/
theorem C5_history_bounded_fifo :
    (∀ (h : List CalculatorHistoryEntry) (e : CalculatorHistoryEntry),
        h.length ≤ MAX_HISTORY → (push_bounded h e).length ≤ MAX_HISTORY) ∧
    (∀ (es : List CalculatorHistoryEntry) (h : List CalculatorHistoryEntry),
        h.length ≤ MAX_HISTORY →
        (es.foldl push_bounded h).length ≤ MAX_HISTORY) ∧
    (∀ es : List CalculatorHistoryEntry, es.length = 250 →
        es.foldl push_bounded [] = es.drop 50) ∧
    (∀ (st : CalculatorState) (resp : CalculatorResponse) (v : F64),
        st.pending_id = some resp.id → resp.error = none → resp.value = some v →
        (handle_calculator_response st resp).history =
          push_bounded st.history
            { radix := resp.radix, input := resp.original_input,
              decimal_expr := resp.decimal_expr,
              output := format_auto_f64 v st.radix, error := none }) := by
  refine ⟨push_bounded_length, ?_, ?_, ?_⟩
  · intro es h hb
    rw [foldl_push_bounded es h hb, List.length_drop]
    simp
    omega
  · intro es hlen
    rw [foldl_push_bounded es [] (by simp [MAX_HISTORY])]
    simp [hlen, MAX_HISTORY]
  · intro st resp v h he hv
    rw [handle_calculator_response, if_pos h, he, hv]

/-- Witness for C5: 250 identical pushes from the empty history keep
exactly the last 200, and one push keeps the bound. -/
theorem C5_history_bounded_fifo_witness :
    ((List.replicate 250 (⟨10, "1+1", "1+1", "2", none⟩ : CalculatorHistoryEntry)).foldl
        push_bounded [] =
      (List.replicate 250 (⟨10, "1+1", "1+1", "2", none⟩ : CalculatorHistoryEntry)).drop 50) ∧
    (push_bounded [] (⟨10, "1+1", "1+1", "2", none⟩ : CalculatorHistoryEntry)).length ≤
      MAX_HISTORY :=
  ⟨C5_history_bounded_fifo.2.2.1 _ (by simp),
   C5_history_bounded_fifo.1 [] _ (by simp [MAX_HISTORY])⟩

/-! ## Character facts for the tokenizer step lemmas -/

theorem ws_char_cases {c : Char} (h : c.isWhitespace = true) :
    c = ' ' ∨ c = '\t' ∨ c = '\r' ∨ c = '\n' := by
  simp [Char.isWhitespace] at h
  tauto

theorem is_number_char_of_ws (radix : Nat) (c : Char) (h : c.isWhitespace = true) :
    is_number_char c radix = false := by
  rcases ws_char_cases h with h' | h' | h' | h' <;>
    subst h' <;> simp [is_number_char, is_digit_in_radix]

theorem number_char_not_ws (radix : Nat) (c : Char)
    (hc : is_number_char c radix = true) : c.isWhitespace = false := by
  cases hw : c.isWhitespace with
  | false => rfl
  | true => rw [is_number_char_of_ws radix c hw] at hc; exact absurd hc (by simp)

theorem is_number_char_minus (radix : Nat) : is_number_char '-' radix = false := by
  simp [is_number_char, is_digit_in_radix]

theorem number_char_ne_minus (radix : Nat) (c : Char)
    (hc : is_number_char c radix = true) : ¬ c = '-' := by
  intro h
  subst h
  rw [is_number_char_minus] at hc
  exact absurd hc (by simp)

theorem op_char_cases {c : Char} (h : is_op_char c = true) :
    c = '+' ∨ c = '-' ∨ c = '*' ∨ c = '/' ∨ c = '%' ∨ c = '^' ∨ c = ',' ∨
      c = '(' ∨ c = ')' := by
  simpa [is_op_char] using h

theorem alpha_not_ws (c : Char) (ha : is_ascii_alphabetic c = true) :
    c.isWhitespace = false := by
  cases hw : c.isWhitespace with
  | false => rfl
  | true =>
      rcases ws_char_cases hw with h' | h' | h' | h' <;>
        subst h' <;> simp [is_ascii_alphabetic] at ha

theorem alpha_ne_minus (c : Char) (ha : is_ascii_alphabetic c = true) :
    ¬ c = '-' := by
  intro h
  subst h
  simp [is_ascii_alphabetic] at ha

theorem alpha_not_op (c : Char) (ha : is_ascii_alphabetic c = true) :
    is_op_char c = false := by
  cases ho : is_op_char c with
  | false => rfl
  | true =>
      rcases op_char_cases ho with h' | h' | h' | h' | h' | h' | h' | h' | h' <;>
        subst h' <;> simp [is_ascii_alphabetic] at ha

theorem is_number_char_underscore (radix : Nat) :
    is_number_char '_' radix = true := by
  simp [is_number_char, is_digit_in_radix]

/-! ## Step lemmas for `convert_loop` -/

/-- One loop iteration on a number-literal token (a character of the
number class, not `-`): the literal run is consumed and its converted
value emitted, preceded by `*` exactly when the previous token was
`Number`, `RParen`, or `Ident`. -/
theorem convert_loop_number_step (radix fuel : Nat) (st : ConvSt) (c : Char)
    (rest : List Char) (val : String)
    (hc : is_number_char c radix = true)
    (hv : convert_number_token
        ⟨c :: rest.takeWhile (fun ch => is_number_char ch radix)⟩ radix = .ok val) :
    convert_loop radix (fuel + 1) st (c :: rest) =
      convert_loop radix fuel
        { out := st.out ++
            (if st.lastKind = .number ∨ st.lastKind = .rparen ∨
                st.lastKind = .ident then "*" else "") ++ val,
          lastKind := .number, lastIdent := st.lastIdent }
        (rest.dropWhile (fun ch => is_number_char ch radix)) := by
  have hws := number_char_not_ws radix c hc
  have hm := number_char_ne_minus radix c hc
  simp only [convert_loop, hws, Bool.false_eq_true, if_false, hm, false_and,
    hc, if_true, hv]

/-- One loop iteration on an identifier token (an ASCII letter that is not
a digit of the radix): the maximal alphanumeric/underscore run is emitted
as-is, preceded by `*` exactly when the previous token was `Number`,
`RParen`, or `Ident`. -/
theorem convert_loop_ident_step (radix fuel : Nat) (st : ConvSt) (c : Char)
    (rest : List Char)
    (ha : is_ascii_alphabetic c = true)
    (hn : is_number_char c radix = false) :
    convert_loop radix (fuel + 1) st (c :: rest) =
      convert_loop radix fuel
        { out := st.out ++
            (if st.lastKind = .number ∨ st.lastKind = .rparen ∨
                st.lastKind = .ident then "*" else "") ++
            (⟨c :: rest.takeWhile (fun ch => is_ascii_alphanumeric ch ∨ ch = '_')⟩ : String),
          lastKind := .ident,
          lastIdent :=
            some ⟨c :: rest.takeWhile (fun ch => is_ascii_alphanumeric ch ∨ ch = '_')⟩ }
        (rest.dropWhile (fun ch => is_ascii_alphanumeric ch ∨ ch = '_')) := by
  have hws := alpha_not_ws c ha
  have hm := alpha_ne_minus c ha
  have ho := alpha_not_op c ha
  simp only [convert_loop, hws, Bool.false_eq_true, if_false, hm, false_and,
    hn, ho, ha, true_or, if_true]

/-- One loop iteration on `(`: emitted with a preceding `*` exactly when
`lparen_insert` holds of the state. -/
theorem convert_loop_lparen_step (radix fuel : Nat) (st : ConvSt)
    (rest : List Char) :
    convert_loop radix (fuel + 1) st ('(' :: rest) =
      convert_loop radix fuel
        { out := st.out ++ (if lparen_insert st then "*(" else "("),
          lastKind := .lparen, lastIdent := st.lastIdent } rest := by
  simp [convert_loop, is_number_char, is_digit_in_radix, is_op_char]

/-- One loop iteration on a unary minus (previous token `Start`, `LParen`,
`Op`, or `Comma`, with at least one following number character): the
signed literal is converted and emitted with no inserted `*`. -/
theorem convert_loop_unary_minus_step (radix fuel : Nat) (st : ConvSt)
    (rest : List Char) (val : String)
    (hk : st.lastKind = .start ∨ st.lastKind = .lparen ∨ st.lastKind = .op ∨
      st.lastKind = .comma)
    (hne : rest.takeWhile (fun ch => is_number_char ch radix) ≠ [])
    (hv : convert_number_token
        ⟨'-' :: rest.takeWhile (fun ch => is_number_char ch radix)⟩ radix = .ok val) :
    convert_loop radix (fuel + 1) st ('-' :: rest) =
      convert_loop radix fuel
        { out := st.out ++ val, lastKind := .number, lastIdent := st.lastIdent }
        (rest.dropWhile (fun ch => is_number_char ch radix)) := by
  simp only [convert_loop, show ('-').isWhitespace = false from rfl,
    Bool.false_eq_true, if_false, true_and]
  rw [if_pos hk, if_neg hne, hv]

/-! ## C2: implicit multiplication -/

/-- C2: the normalizer inserts an implicit `*` before a `Number` or
`Identifier` token (and before `(`) exactly when the previously emitted
token was `Number`, `RParen`, or `Identifier` — except that no `*` is
inserted between a recognized function name and a directly following `(`;
a unary-minus literal (possible only after `Start`/`LParen`/`Op`/`Comma`)
is emitted with no `*`. In particular `normalize("2(3+1)", 10) = "2*(3+1)"`,
`normalize("2pi", 10) = "2*pi"`, and `normalize("sin(0)", 10) = "sin(0)"`. -/
theorem C2_implicit_multiplication :
    (∀ (radix fuel : Nat) (st : ConvSt) (c : Char) (rest : List Char)
        (val : String),
        is_number_char c radix = true →
        convert_number_token
            ⟨c :: rest.takeWhile (fun ch => is_number_char ch radix)⟩ radix =
          .ok val →
        convert_loop radix (fuel + 1) st (c :: rest) =
          convert_loop radix fuel
            { out := st.out ++
                (if st.lastKind = .number ∨ st.lastKind = .rparen ∨
                    st.lastKind = .ident then "*" else "") ++ val,
              lastKind := .number, lastIdent := st.lastIdent }
            (rest.dropWhile (fun ch => is_number_char ch radix))) ∧
    (∀ (radix fuel : Nat) (st : ConvSt) (c : Char) (rest : List Char),
        is_ascii_alphabetic c = true →
        is_number_char c radix = false →
        convert_loop radix (fuel + 1) st (c :: rest) =
          convert_loop radix fuel
            { out := st.out ++
                (if st.lastKind = .number ∨ st.lastKind = .rparen ∨
                    st.lastKind = .ident then "*" else "") ++
                (⟨c :: rest.takeWhile
                    (fun ch => is_ascii_alphanumeric ch ∨ ch = '_')⟩ : String),
              lastKind := .ident,
              lastIdent := some ⟨c :: rest.takeWhile
                  (fun ch => is_ascii_alphanumeric ch ∨ ch = '_')⟩ }
            (rest.dropWhile (fun ch => is_ascii_alphanumeric ch ∨ ch = '_'))) ∧
    (∀ (radix fuel : Nat) (st : ConvSt) (rest : List Char),
        convert_loop radix (fuel + 1) st ('(' :: rest) =
          convert_loop radix fuel
            { out := st.out ++ (if lparen_insert st then "*(" else "("),
              lastKind := .lparen, lastIdent := st.lastIdent } rest) ∧
    (∀ (st : ConvSt) (name : String), st.lastIdent = some name →
        (lparen_insert st = true ↔
          (st.lastKind = .number ∨ st.lastKind = .rparen ∨
            (st.lastKind = .ident ∧ is_function_like name = false)))) ∧
    (∀ (radix fuel : Nat) (st : ConvSt) (rest : List Char) (val : String),
        (st.lastKind = .start ∨ st.lastKind = .lparen ∨ st.lastKind = .op ∨
          st.lastKind = .comma) →
        rest.takeWhile (fun ch => is_number_char ch radix) ≠ [] →
        convert_number_token
            ⟨'-' :: rest.takeWhile (fun ch => is_number_char ch radix)⟩ radix =
          .ok val →
        convert_loop radix (fuel + 1) st ('-' :: rest) =
          convert_loop radix fuel
            { out := st.out ++ val, lastKind := .number,
              lastIdent := st.lastIdent }
            (rest.dropWhile (fun ch => is_number_char ch radix))) ∧
    convert_expr_from_base "2(3+1)" 10 = .ok "2*(3+1)" ∧
    convert_expr_from_base "2pi" 10 = .ok "2*pi" ∧
    convert_expr_from_base "sin(0)" 10 = .ok "sin(0)" := by
  refine ⟨convert_loop_number_step, convert_loop_ident_step,
    convert_loop_lparen_step, ?_, convert_loop_unary_minus_step, rfl, rfl, rfl⟩
  intro st name h
  cases hk : st.lastKind <;> simp [lparen_insert, hk, h]

/-- Witness for C2: one number-token step after a `Number` state inserts
the `*`. -/
theorem C2_implicit_multiplication_witness :
    convert_loop 10 1 ⟨"2", .number, none⟩ ['3'] =
      convert_loop 10 0 ⟨"2*3", .number, none⟩ [] :=
  (C2_implicit_multiplication.1 10 0 ⟨"2", .number, none⟩ '3' [] "3"
    rfl rfl).trans (by rfl)

/-! ## C7: `normalize("G", 16)` does not fail (corrected) -/

/-- C7 counterexample: the claim says `normalize("G", 16)` fails with a
digit-out-of-radix error; in the code `G` is outside the number-character
class and is lexed through the identifier branch, so normalization
succeeds and returns `"G"` unchanged. -/
theorem C7_counterexample : convert_expr_from_base "G" 16 = .ok "G" := by rfl

/-- C7 (amended): an ASCII letter outside the radix's digit range is lexed
as an identifier, not rejected: `normalize("G", 16)` succeeds with `"G"`,
and `normalize("2G", 16)` succeeds with `"2*G"` (implicit multiplication
before the identifier). -/
theorem C7_out_of_radix_letter_is_ident :
    convert_expr_from_base "G" 16 = .ok "G" ∧
    convert_expr_from_base "2G" 16 = .ok "2*G" := ⟨rfl, rfl⟩

/-! ## C8: identifier lexing (corrected: `_` starts a numeric token) -/

/-- C8 counterexample: the claim says a token beginning with `_` is treated
as an identifier; in the code `_` belongs to the number-character class
(checked before the identifier branch), so `"_a"` in radix 16 is parsed as
the *numeric* literal `a` (underscores stripped) yielding `"10"`, and
`"_"` alone fails as an empty number, not as an identifier. -/
theorem C8_counterexample :
    convert_expr_from_base "_a" 16 = .ok "10" ∧
    convert_expr_from_base "_" 10 = .error "无效数字" := ⟨rfl, rfl⟩

/-- C8 (amended): a maximal run of ASCII letters/digits/underscores that
starts with a letter that is *not* a radix digit is lexed as one
`Identifier` token and emitted as-is (with only the implicit `*` possibly
prepended); a token beginning with `_` is instead lexed as a numeric token,
since `_` always counts as a number character. -/
theorem C8_identifier_lexing :
    (∀ (radix fuel : Nat) (st : ConvSt) (c : Char) (rest : List Char),
        is_ascii_alphabetic c = true →
        is_number_char c radix = false →
        convert_loop radix (fuel + 1) st (c :: rest) =
          convert_loop radix fuel
            { out := st.out ++
                (if st.lastKind = .number ∨ st.lastKind = .rparen ∨
                    st.lastKind = .ident then "*" else "") ++
                (⟨c :: rest.takeWhile
                    (fun ch => is_ascii_alphanumeric ch ∨ ch = '_')⟩ : String),
              lastKind := .ident,
              lastIdent := some ⟨c :: rest.takeWhile
                  (fun ch => is_ascii_alphanumeric ch ∨ ch = '_')⟩ }
            (rest.dropWhile (fun ch => is_ascii_alphanumeric ch ∨ ch = '_'))) ∧
    (∀ radix : Nat, is_number_char '_' radix = true) ∧
    convert_expr_from_base "GAB" 16 = .ok "GAB" ∧
    convert_expr_from_base "x_1" 10 = .ok "x_1" ∧
    convert_expr_from_base "_1" 10 = .ok "1" :=
  ⟨convert_loop_ident_step, is_number_char_underscore, rfl, rfl, rfl⟩

/-- Witness for C8: one identifier-token step on `pi` after a `Number`
state. -/
theorem C8_identifier_lexing_witness :
    convert_loop 10 1 ⟨"2", .number, none⟩ ['p', 'i'] =
      convert_loop 10 0 ⟨"2*pi", .ident, some "pi"⟩ [] :=
  (C8_identifier_lexing.1 10 0 ⟨"2", .number, none⟩ 'p' ['i']
    rfl rfl).trans (by rfl)

/-! ## C1: integer literal normalization -/

/-- The value of a digit string read most-significant first in the given
radix (the standard positional value; used to state what
`convert_number_token` computes). -/
def radix_value (radix : Nat) (l : List Char) : Nat :=
  l.foldl (fun a c => a * radix + digit_val c) 0

theorem digit_char_to_digit (radix : Nat) (c : Char)
    (hd : is_digit_in_radix c radix = true) (hu : ¬ c = '_') :
    char_to_digit (ascii_to_upper c) radix = some (digit_val c) ∧
    digit_val c < radix := by
  unfold is_digit_in_radix at hd
  by_cases h1 : 48 ≤ c.toNat ∧ c.toNat ≤ 57
  · rw [if_pos h1] at hd
    simp only [decide_eq_true_eq] at hd
    have hv : digit_val c = c.toNat - 48 := by
      unfold digit_val
      rw [if_pos h1]
    have hup : ascii_to_upper c = c := by
      unfold ascii_to_upper
      rw [if_neg (by omega)]
    refine ⟨?_, by omega⟩
    rw [hup]
    unfold char_to_digit
    rw [if_pos ⟨Or.inl h1, by omega⟩]
  · by_cases h2 : 65 ≤ c.toNat ∧ c.toNat ≤ 70
    · rw [if_neg h1, if_pos h2] at hd
      simp only [decide_eq_true_eq] at hd
      have hv : digit_val c = c.toNat - 65 + 10 := by
        unfold digit_val
        rw [if_neg h1, if_neg (by omega), if_pos (by omega)]
      have hup : ascii_to_upper c = c := by
        unfold ascii_to_upper
        rw [if_neg (by omega)]
      refine ⟨?_, by omega⟩
      rw [hup]
      unfold char_to_digit
      rw [if_pos ⟨Or.inr (Or.inr (by omega)), by omega⟩]
    · by_cases h3 : 97 ≤ c.toNat ∧ c.toNat ≤ 102
      · rw [if_neg h1, if_neg h2, if_pos h3] at hd
        simp only [decide_eq_true_eq] at hd
        have hvalid : (c.toNat - 32).isValidChar := by
          unfold Nat.isValidChar
          left
          omega
        have hup : (ascii_to_upper c).toNat = c.toNat - 32 := by
          unfold ascii_to_upper
          rw [if_pos (by omega)]
          exact char_toNat_ofNat_valid hvalid
        have hv : digit_val c = c.toNat - 97 + 10 := by
          unfold digit_val
          rw [if_neg h1, if_pos (by omega)]
        have hvu : digit_val (ascii_to_upper c) = c.toNat - 97 + 10 := by
          unfold digit_val
          rw [hup, if_neg (by omega), if_neg (by omega), if_pos (by omega)]
          omega
        refine ⟨?_, by omega⟩
        unfold char_to_digit
        rw [hup, hvu, if_pos ⟨Or.inr (Or.inr (by omega)), by omega⟩, hv]
      · rw [if_neg h1, if_neg h2, if_neg h3] at hd
        simp only [decide_eq_true_eq] at hd
        exact absurd hd hu

theorem foldl_digits_ge (radix : Nat) (hr : 1 ≤ radix) (l : List Char) :
    ∀ a : Nat, a ≤ l.foldl (fun a c => a * radix + digit_val c) a := by
  induction l with
  | nil => intro a; exact Nat.le_refl a
  | cons c t ih =>
      intro a
      rw [List.foldl_cons]
      refine le_trans ?_ (ih (a * radix + digit_val c))
      calc a ≤ a * radix := Nat.le_mul_of_pos_right a hr
        _ ≤ a * radix + digit_val c := Nat.le_add_right _ _

theorem i128_fold_ok (radix : Nat) (u : Char → Char) (l : List Char) :
    ∀ a : Nat,
    (∀ c ∈ l, char_to_digit (u c) radix = some (digit_val c)) →
    1 ≤ radix →
    l.foldl (fun a c => a * radix + digit_val c) a ≤ i128Max →
    (l.map u).foldl
        (fun acc c =>
          match acc, char_to_digit c radix with
          | some a, some d =>
              if a * radix + d ≤ i128Max then some (a * radix + d) else none
          | _, _ => none) (some a) =
      some (l.foldl (fun a c => a * radix + digit_val c) a) := by
  induction l with
  | nil => intro a _ _ _; rfl
  | cons c t ih =>
      intro a hc hr hb
      rw [List.foldl_cons] at hb
      rw [List.map_cons, List.foldl_cons, hc c (by simp)]
      have hstep : a * radix + digit_val c ≤ i128Max :=
        le_trans (foldl_digits_ge radix hr t (a * radix + digit_val c)) hb
      simp only [hstep, if_true]
      exact ih (a * radix + digit_val c)
        (fun x hx => hc x (by simp [hx])) hr hb

theorem is_digit_in_radix_dot (radix : Nat) :
    is_digit_in_radix '.' radix = false := by
  simp [is_digit_in_radix]

theorem is_digit_in_radix_minus (radix : Nat) :
    is_digit_in_radix '-' radix = false := by
  simp [is_digit_in_radix]

theorem i128_to_string_natCast (v : Nat) :
    i128_to_string (v : Int) = u128_to_string v := by
  rw [i128_to_string, if_neg (not_lt.mpr (Int.natCast_nonneg _)),
    Int.toNat_natCast]

theorem convert_number_token_ok (radix : Nat) (tok : String)
    (hr : 1 ≤ radix)
    (hd : ∀ c ∈ tok.data, is_digit_in_radix c radix = true)
    (hne : tok.data.filter (· ≠ '_') ≠ [])
    (hb : radix_value radix (tok.data.filter (· ≠ '_')) ≤ i128Max) :
    convert_number_token tok radix =
      .ok (u128_to_string (radix_value radix (tok.data.filter (· ≠ '_')))) := by
  have hdot : ¬ (radix = 10 ∧ tok.data.contains '.' = true) := by
    rintro ⟨-, hcon⟩
    rw [List.contains_iff_exists_mem_beq] at hcon
    obtain ⟨c, hcmem, hcbeq⟩ := hcon
    rw [beq_iff_eq] at hcbeq
    subst hcbeq
    have h := hd _ hcmem
    rw [is_digit_in_radix_dot] at h
    exact absurd h (by simp)
  have hmem : ∀ c ∈ tok.data.filter (· ≠ '_'),
      is_digit_in_radix c radix = true ∧ ¬ c = '_' := by
    intro c hc
    rw [List.mem_filter] at hc
    refine ⟨hd c hc.1, ?_⟩
    have h := hc.2
    simpa using h
  have hneg : ¬ (tok.data.filter (· ≠ '_')).head? = some '-' := by
    intro hh
    have hm : '-' ∈ tok.data.filter (· ≠ '_') :=
      List.mem_of_mem_head? (by rw [hh]; rfl)
    have h := (hmem _ hm).1
    rw [is_digit_in_radix_minus] at h
    exact absurd h (by simp)
  have hall : (tok.data.filter (· ≠ '_')).all
      (fun c => is_digit_in_radix c radix) = true := by
    rw [List.all_eq_true]
    intro c hc
    exact (hmem c hc).1
  simp only [convert_number_token]
  rw [if_neg hdot, if_neg hneg, if_neg hne, if_neg (not_not_intro hall)]
  simp only [i128_from_str_radix]
  rw [if_neg (fun hmap => hne (List.map_eq_nil_iff.mp hmap)),
    i128_fold_ok radix ascii_to_upper _ 0
      (fun c hc => (digit_char_to_digit radix c (hmem c hc).1 (hmem c hc).2).1)
      hr hb]
  simp only [eq_false hneg, if_false, i128_to_string_natCast]
  rfl

theorem convert_number_token_neg_ok (radix : Nat) (tok : String)
    (hr : 1 ≤ radix)
    (hd : ∀ c ∈ tok.data, is_digit_in_radix c radix = true)
    (hne : tok.data.filter (· ≠ '_') ≠ [])
    (hb : radix_value radix (tok.data.filter (· ≠ '_')) ≤ i128Max) :
    convert_number_token ⟨'-' :: tok.data⟩ radix =
      .ok (i128_to_string
        (-(radix_value radix (tok.data.filter (· ≠ '_')) : Int))) := by
  have hdot : ¬ (radix = 10 ∧ (('-' :: tok.data).contains '.') = true) := by
    rintro ⟨-, hcon⟩
    rw [List.contains_iff_exists_mem_beq] at hcon
    obtain ⟨c, hcmem, hcbeq⟩ := hcon
    rw [beq_iff_eq] at hcbeq
    subst hcbeq
    rcases List.mem_cons.mp hcmem with h | h
    · exact absurd h (by decide)
    · have h' := hd _ h
      rw [is_digit_in_radix_dot] at h'
      exact absurd h' (by simp)
  have hmem : ∀ c ∈ tok.data.filter (· ≠ '_'),
      is_digit_in_radix c radix = true ∧ ¬ c = '_' := by
    intro c hc
    rw [List.mem_filter] at hc
    refine ⟨hd c hc.1, ?_⟩
    have h := hc.2
    simpa using h
  have hall : (tok.data.filter (· ≠ '_')).all
      (fun c => is_digit_in_radix c radix) = true := by
    rw [List.all_eq_true]
    intro c hc
    exact (hmem c hc).1
  have hdata : (⟨'-' :: tok.data⟩ : String).data = '-' :: tok.data := rfl
  have hfil : List.filter (fun x => decide (x ≠ '_')) ('-' :: tok.data) =
      '-' :: List.filter (fun x => decide (x ≠ '_')) tok.data := by
    simp
  simp only [convert_number_token, hdata, hfil, List.head?_cons,
    Option.some.injEq, eq_self_iff_true, if_true, List.tail_cons]
  rw [if_neg hdot, if_neg hne, if_neg (not_not_intro hall)]
  simp only [i128_from_str_radix]
  rw [if_neg (fun hmap => hne (List.map_eq_nil_iff.mp hmap)),
    i128_fold_ok radix ascii_to_upper _ 0
      (fun c hc => (digit_char_to_digit radix c (hmem c hc).1 (hmem c hc).2).1)
      hr hb]
  rfl

/-- C1: for every integer literal token (a maximal run of radix-valid
digit/underscore characters, optionally preceded by a unary `-`), the
normalizer strips underscores, parses the digits in the given radix as a
128-bit signed integer, and emits its decimal rendering with the original
sign; in particular `normalize("A+B", 16) = "10+11"`,
`normalize("FF", 16) = "255"`, `normalize("1010+1111", 2) = "10+15"`. -/
theorem C1_integer_literal_normalization :
    (∀ (radix : Nat) (tok : String),
        1 ≤ radix →
        (∀ c ∈ tok.data, is_digit_in_radix c radix = true) →
        tok.data.filter (· ≠ '_') ≠ [] →
        radix_value radix (tok.data.filter (· ≠ '_')) ≤ i128Max →
        convert_number_token tok radix =
          .ok (u128_to_string (radix_value radix (tok.data.filter (· ≠ '_'))))) ∧
    (∀ (radix : Nat) (tok : String),
        1 ≤ radix →
        (∀ c ∈ tok.data, is_digit_in_radix c radix = true) →
        tok.data.filter (· ≠ '_') ≠ [] →
        radix_value radix (tok.data.filter (· ≠ '_')) ≤ i128Max →
        convert_number_token ⟨'-' :: tok.data⟩ radix =
          .ok (i128_to_string
            (-(radix_value radix (tok.data.filter (· ≠ '_')) : Int)))) ∧
    convert_expr_from_base "A+B" 16 = .ok "10+11" ∧
    convert_expr_from_base "FF" 16 = .ok "255" ∧
    convert_expr_from_base "1010+1111" 2 = .ok "10+15" :=
  ⟨convert_number_token_ok, convert_number_token_neg_ok, rfl, rfl, rfl⟩

/-- Witness for C1 at the concrete tokens `FF` (radix 16) and `-1_0`
(radix 2). -/
theorem C1_integer_literal_normalization_witness :
    convert_number_token "FF" 16 =
      .ok (u128_to_string (radix_value 16 ("FF".data.filter (· ≠ '_')))) ∧
    convert_number_token ⟨'-' :: "1_0".data⟩ 2 =
      .ok (i128_to_string (-(radix_value 2 ("1_0".data.filter (· ≠ '_')) : Int))) :=
  ⟨C1_integer_literal_normalization.1 16 "FF" (by decide) (by decide)
      (by decide) (by decide),
   C1_integer_literal_normalization.2.1 2 "1_0" (by decide) (by decide)
      (by decide) (by decide)⟩

/-! ## C3: integer round-trip through the formatter -/

/-- Value of a least-significant-first digit list. -/
def lsb_value (radix : Nat) (l : List Nat) : Nat :=
  l.foldr (fun d a => d + radix * a) 0

theorem digitsAux_value (radix : Nat) (h2 : 2 ≤ radix) :
    ∀ fuel v : Nat, v ≤ fuel → lsb_value radix (digitsAux radix fuel v) = v := by
  intro fuel
  induction fuel with
  | zero =>
      intro v hv
      interval_cases v
      rfl
  | succ fuel ih =>
      intro v hv
      rw [digitsAux]
      by_cases h0 : v = 0
      · subst h0
        simp [lsb_value]
      · rw [if_neg h0]
        unfold lsb_value
        rw [List.foldr_cons]
        have hle : v / radix ≤ fuel := by
          have := Nat.div_lt_self (Nat.pos_of_ne_zero h0) (by omega : 1 < radix)
          omega
        rw [show (digitsAux radix fuel (v / radix)).foldr
              (fun d a => d + radix * a) 0 =
            lsb_value radix (digitsAux radix fuel (v / radix)) from rfl,
          ih (v / radix) hle]
        exact Nat.mod_add_div v radix

theorem digitsAux_lt (radix : Nat) (hr : 0 < radix) :
    ∀ fuel v d : Nat, d ∈ digitsAux radix fuel v → d < radix := by
  intro fuel
  induction fuel with
  | zero =>
      intro v d hd
      simp [digitsAux] at hd
  | succ fuel ih =>
      intro v d hd
      rw [digitsAux] at hd
      by_cases h0 : v = 0
      · rw [if_pos h0] at hd
        simp at hd
      · rw [if_neg h0] at hd
        rcases List.mem_cons.mp hd with h | h
        · subst h
          exact Nat.mod_lt v hr
        · exact ih _ _ h

theorem parse_rev_map (radix : Nat) (cm : Nat → Char)
    (hcm : ∀ d, d < radix → digit_val (cm d) = d) :
    ∀ l : List Nat, (∀ d ∈ l, d < radix) →
    ((l.map cm).reverse).foldl (fun a c => a * radix + digit_val c) 0 =
      lsb_value radix l := by
  intro l
  induction l with
  | nil => intro _; rfl
  | cons d t ih =>
      intro hl
      rw [List.map_cons, List.reverse_cons, List.foldl_append,
        List.foldl_cons, List.foldl_nil,
        ih (fun x hx => hl x (List.mem_cons_of_mem d hx)),
        hcm d (hl d (List.mem_cons_self d t))]
      unfold lsb_value
      rw [List.foldr_cons]
      ring

theorem digit_val_digit_char (d : Nat) (hd : d < 10) :
    digit_val (Char.ofNat (48 + d)) = d := by
  interval_cases d <;> decide

theorem digit_val_hex_char (d : Nat) (hd : d < 16) :
    digit_val (hex_digit_char d) = d := by
  interval_cases d <;> decide

theorem parse_back_format_radix (radix : Nat) (h2 : 2 ≤ radix)
    (h10 : radix ≤ 10) (v : Nat) :
    parse_back_radix radix (format_radix v radix) = v := by
  by_cases hv : v = 0
  · subst hv
    rw [format_radix, if_pos rfl]
    show 0 * radix + digit_val '0' = 0
    simp [digit_val]
  · rw [format_radix, if_neg hv]
    show ((((digitsAux radix v v).map
        (fun d => Char.ofNat (48 + d))).reverse).foldl
      (fun a c => a * radix + digit_val c) 0) = v
    rw [parse_rev_map radix _
        (fun d hd => digit_val_digit_char d (by omega))
        _ (digitsAux_lt radix (by omega) v v),
      digitsAux_value radix h2 v v (Nat.le_refl v)]

theorem parse_back_format_hex (v : Nat) :
    parse_back_radix 16 (format_radix_hex v) = v := by
  by_cases hv : v = 0
  · subst hv
    rw [format_radix_hex, if_pos rfl]
    show 0 * 16 + digit_val '0' = 0
    simp [digit_val]
  · rw [format_radix_hex, if_neg hv]
    show ((((digitsAux 16 v v).map hex_digit_char).reverse).foldl
      (fun a c => a * 16 + digit_val c) 0) = v
    rw [parse_rev_map 16 _ (fun d hd => digit_val_hex_char d hd)
        _ (digitsAux_lt 16 (by omega) v v),
      digitsAux_value 16 (by omega) v v (Nat.le_refl v)]

theorem parse_back_format_value (radix : Nat)
    (h : radix = 2 ∨ radix = 8 ∨ radix = 10 ∨ radix = 16) (n : Nat) :
    parse_back_radix radix (format_value_in_radix (n : Int) radix) = n := by
  have hneg : ¬ ((n : Int) < 0) := not_lt.mpr (Int.natCast_nonneg n)
  rcases h with h | h | h | h <;> subst h <;>
    simp only [format_value_in_radix] <;> rw [if_neg hneg]
  · rw [Int.natAbs_ofNat]
    exact parse_back_format_radix 2 (by omega) (by omega) n
  · rw [Int.natAbs_ofNat]
    exact parse_back_format_radix 8 (by omega) (by omega) n
  · rw [Int.natAbs_ofNat, u128_to_string]
    exact parse_back_format_radix 10 (by omega) (by omega) n
  · rw [Int.natAbs_ofNat]
    exact parse_back_format_hex n

theorem tol_const_pos : (0 : ℚ) < tol_const := by norm_num [tol_const]

theorem round_half_away_natCast (n : Nat) :
    round_half_away (n : ℚ) = (n : Int) := by
  unfold round_half_away
  rw [if_neg (not_lt.mpr (by positivity)),
    show ((n : ℚ) + 1 / 2) = ((n : Int) : ℚ) + 1 / 2 by push_cast; ring,
    Int.floor_int_add]
  norm_num

theorem format_auto_natCast (n : Nat) (radix fd : Nat) (h : n < 2 ^ 127) :
    format_auto (n : ℚ) radix fd = format_value_in_radix (n : Int) radix := by
  unfold format_auto
  rw [round_half_away_natCast]
  rw [if_pos ?cond]
  case cond =>
    constructor
    · rw [show ((n : ℚ) - ((n : Int) : ℚ)) = 0 by push_cast; ring, abs_zero]
      exact le_max_of_le_left tol_const_pos.le
    · rw [show |((n : Int) : ℚ)| = (n : ℚ) by
        push_cast
        exact abs_of_nonneg (by positivity)]
      have h' : (n : ℚ) < 2 ^ 127 := by exact_mod_cast h
      exact h'.le
  have hsat : i128_sat_cast (n : Int) = (n : Int) := by
    unfold i128_sat_cast
    rw [if_neg (not_le.mpr (by exact_mod_cast h)),
      if_neg (not_lt.mpr (le_trans (by norm_num) (Int.natCast_nonneg n)))]
  rw [hsat]

/-- C3 counterexample: the claim quantifies over every 64-bit `n`, but
`n as f64` is lossy above `2^53`: for `n = 2^53 + 1` the conversion rounds
(ties to even) to `2^53`, `format_auto` renders that integer, and parsing
back yields `2^53 ≠ 2^53 + 1`. -/
theorem C3_roundtrip_counterexample :
    f64_of_nat (2 ^ 53 + 1) = 2 ^ 53 ∧
    parse_back_radix 10
        (format_auto ((f64_of_nat (2 ^ 53 + 1) : Nat) : ℚ) 10 16) ≠
      2 ^ 53 + 1 := by
  have h1 : f64_of_nat (2 ^ 53 + 1) = 2 ^ 53 := by decide
  refine ⟨h1, ?_⟩
  rw [h1, format_auto_natCast _ 10 16 (by norm_num),
    parse_back_format_value 10 (Or.inr (Or.inr (Or.inl rfl))) _]
  norm_num

/-- C3 (amended): for every radix `r ∈ {2,8,10,16}` and every non-negative
integer `n` exactly representable in an `f64` — in particular every
`n < 2^53` — formatting `n as f64` through `format_auto` and parsing the
digit string back in base `r` yields `n` again; above `2^53` the `as f64`
conversion itself is lossy and the round-trip returns the rounded value
instead. -/
theorem C3_roundtrip (radix : Nat)
    (h : radix = 2 ∨ radix = 8 ∨ radix = 10 ∨ radix = 16)
    (n : Nat) (hn : n < 2 ^ 53) (fd : Nat) :
    f64_of_nat n = n ∧
    parse_back_radix radix (format_auto ((f64_of_nat n : Nat) : ℚ) radix fd) = n := by
  have h1 : f64_of_nat n = n := by
    simp only [f64_of_nat]
    rw [if_pos (by omega : n ≤ 2 ^ 53)]
  refine ⟨h1, ?_⟩
  rw [h1, format_auto_natCast n radix fd (lt_trans hn (by norm_num))]
  exact parse_back_format_value radix h n

/-- Witness for C3 at `n = 255`, radix 16. -/
theorem C3_roundtrip_witness :
    f64_of_nat 255 = 255 ∧
    parse_back_radix 16 (format_auto ((f64_of_nat 255 : Nat) : ℚ) 16 16) = 255 :=
  C3_roundtrip 16 (Or.inr (Or.inr (Or.inr rfl))) 255 (by norm_num) 16

/-! ## C9: the fractional-digit loop -/

theorem frac_loop_length (r : ℚ) :
    ∀ (fd : Nat) (f : ℚ) (acc : String),
    (frac_loop r fd f acc).length ≤ acc.length + fd := by
  intro fd
  induction fd with
  | zero =>
      intro f acc
      simp [frac_loop]
  | succ fd ih =>
      intro f acc
      simp only [frac_loop]
      by_cases hc : f * r - (⌊f * r⌋ : ℚ) < tol_const
      · rw [if_pos hc]
        simp
      · rw [if_neg hc]
        refine le_trans (ih _ _) ?_
        simp
        omega

theorem frac_loop_early_stop (r : ℚ) (fd : Nat) (f : ℚ) (acc : String)
    (h : f * r - (⌊f * r⌋ : ℚ) < tol_const) :
    frac_loop r (fd + 1) f acc = acc.push (hex_digit_char (⌊f * r⌋).toNat) := by
  simp only [frac_loop]
  rw [if_pos h]

theorem frac_loop_step (r f g : ℚ) (fd : Nat) (acc : String) (d : Nat)
    (hd : ⌊f * r⌋ = (d : Int)) (hg : f * r - (d : ℚ) = g)
    (hng : ¬ g < tol_const) :
    frac_loop r (fd + 1) f acc =
      frac_loop r fd g (acc.push (hex_digit_char d)) := by
  simp only [frac_loop, hd, Int.toNat_natCast, Int.cast_natCast, hg]
  rw [if_neg hng]

theorem frac_loop_one_third_hex :
    frac_loop 16 8 ((6004799503160661 : ℚ) / 2 ^ 54) "" = "55555555" :=
  calc frac_loop 16 8 ((6004799503160661 : ℚ) / 2 ^ 54) ""
      = frac_loop 16 7 ((375299968947541 : ℚ) / 2 ^ 50) "5" :=
        frac_loop_step _ _ _ 7 _ 5 (by norm_num) (by norm_num)
          (by norm_num [tol_const])
    _ = frac_loop 16 6 ((23456248059221 : ℚ) / 2 ^ 46) "55" :=
        frac_loop_step _ _ _ 6 _ 5 (by norm_num) (by norm_num)
          (by norm_num [tol_const])
    _ = frac_loop 16 5 ((1466015503701 : ℚ) / 2 ^ 42) "555" :=
        frac_loop_step _ _ _ 5 _ 5 (by norm_num) (by norm_num)
          (by norm_num [tol_const])
    _ = frac_loop 16 4 ((91625968981 : ℚ) / 2 ^ 38) "5555" :=
        frac_loop_step _ _ _ 4 _ 5 (by norm_num) (by norm_num)
          (by norm_num [tol_const])
    _ = frac_loop 16 3 ((5726623061 : ℚ) / 2 ^ 34) "55555" :=
        frac_loop_step _ _ _ 3 _ 5 (by norm_num) (by norm_num)
          (by norm_num [tol_const])
    _ = frac_loop 16 2 ((357913941 : ℚ) / 2 ^ 30) "555555" :=
        frac_loop_step _ _ _ 2 _ 5 (by norm_num) (by norm_num)
          (by norm_num [tol_const])
    _ = frac_loop 16 1 ((22369621 : ℚ) / 2 ^ 26) "5555555" :=
        frac_loop_step _ _ _ 1 _ 5 (by norm_num) (by norm_num)
          (by norm_num [tol_const])
    _ = frac_loop 16 0 ((1398101 : ℚ) / 2 ^ 22) "55555555" :=
        frac_loop_step _ _ _ 0 _ 5 (by norm_num) (by norm_num)
          (by norm_num [tol_const])
    _ = "55555555" := rfl

/-- C9 counterexample: the claim says `format(1.0/3.0, 16, 8)` stops before
8 digits once the remainder drops under the tolerance; in fact the
remainder stays near `1/3` (far above `1e-12`) at every step, so all 8
fractional digits are emitted: the result is `"0.55555555"` with exactly
8 fractional digits. (`1.0/3.0` as `f64` is exactly
`6004799503160661 * 2^-54`.) -/
theorem C9_one_third_counterexample :
    format_float_in_radix ((6004799503160661 : ℚ) / 2 ^ 54) 16 8 =
      "0.55555555" := by
  have hx0 : (0 : ℚ) ≤ (6004799503160661 : ℚ) / 2 ^ 54 := by norm_num
  have hfl : ⌊(6004799503160661 : ℚ) / 2 ^ 54⌋ = 0 := by norm_num
  simp only [format_float_in_radix]
  rw [if_neg (by norm_num : ¬ (16 = 10)), abs_of_nonneg hx0, hfl]
  rw [if_neg (by norm_num : ¬ (((0 : Int) : ℚ) > 2 ^ 128))]
  simp only [Int.toNat_zero, Nat.cast_zero, sub_zero]
  rw [if_neg (by norm_num :
    ¬ (8 = 0 ∨ (6004799503160661 : ℚ) / 2 ^ 54 ≤ 0))]
  rw [show ((16 : Nat) : ℚ) = (16 : ℚ) by norm_num, frac_loop_one_third_hex]
  rw [if_neg (by decide : ¬ ("55555555" = "")),
    if_neg (not_lt.mpr hx0)]
  rfl

/-- C9 (amended): the fractional-digit loop emits at most `frac_digits`
digits (so it cannot loop forever — the loop is a total function bounded by
its fuel), and stops as soon as the remaining fractional value drops below
`1e-12`; however `format(1.0/3.0, 16, 8)` does not stop early: the
remainder never drops below the tolerance within 8 digits, so exactly
8 digits `55555555` are emitted. -/
theorem C9_fraction_loop_bounded :
    (∀ (r : ℚ) (fd : Nat) (f : ℚ) (acc : String),
        (frac_loop r fd f acc).length ≤ acc.length + fd) ∧
    (∀ (r : ℚ) (fd : Nat) (f : ℚ) (acc : String),
        f * r - (⌊f * r⌋ : ℚ) < tol_const →
        frac_loop r (fd + 1) f acc = acc.push (hex_digit_char (⌊f * r⌋).toNat)) ∧
    frac_loop 16 8 ((6004799503160661 : ℚ) / 2 ^ 54) "" = "55555555" :=
  ⟨frac_loop_length, frac_loop_early_stop, frac_loop_one_third_hex⟩

/-- Witness for C9: the loop stops immediately when the first remainder is
below the tolerance (here it is 0), and the length bound at a concrete
input. -/
theorem C9_fraction_loop_bounded_witness :
    frac_loop 2 (0 + 1) 0 "" = "".push (hex_digit_char (⌊(0 : ℚ) * 2⌋).toNat) ∧
    (frac_loop 3 5 (1 / 2) "").length ≤ "".length + 5 :=
  ⟨C9_fraction_loop_bounded.2.1 2 0 0 "" (by simp [tol_const]),
   C9_fraction_loop_bounded.1 3 5 (1 / 2) ""⟩
